import Mathlib

/-!
# Verification of the X-AnyLabeling chat/extraction core

Shallow embedding of the response-extraction, coordinate-conversion,
streaming-channel and persistence logic of the repository:

* `src/convert_vlm_r1_ovd_to_xlabel.py` — `extract_bbox_data`,
  `convert_entry_to_xlabel`;
* `src/anylabeling/views/labeling/widgets/chatbot_dialog.py` —
  `_extract_bbox_data`, `_convert_vlm_r1_ovd_entry_to_xlabel`,
  `generate_xlabel_from_assistant_response`, `add_message`, `handle_error`,
  `update_output`, `on_stream_finished`, `stream_generation`,
  `check_for_cancellation`, `save_chat_history_with_prefix`;
* `src/anylabeling/services/auto_labeling/qwen_vl.py` — `postprocess`.

JSON numbers are embedded as exact scaled decimals `mant / 10 ^ scale`
(integer mantissa, natural scale), which is the exact value denoted by a
JSON numeric token; their rational value feeds the coordinate converters.
All arithmetic exercised by the theorems below (halving, scaling by
integer dimensions, clamping, min/max) is exact in binary floating point,
so this embedding agrees with Python's float semantics on every input
used here.
-/

namespace XAny

/-- JSON values as produced by Python's `json.loads`.  Objects keep their
key/value pairs in parse order (Python builds a `dict`, where a duplicated
key keeps the last occurrence; lookups below implement that).  A number
token denotes the exact decimal `mant / 10 ^ scale`. -/
inductive Json where
  | null : Json
  | bool (b : Bool) : Json
  | num (mant : Int) (scale : Nat) : Json
  | str (s : String) : Json
  | arr (xs : List Json) : Json
  | obj (kvs : List (String × Json)) : Json

namespace Json

/-- The rational value of a JSON number. -/
def qval (mant : Int) (scale : Nat) : ℚ := (mant : ℚ) / (10 : ℚ) ^ scale

/-- `d[k]` for a JSON object, with Python's last-occurrence-wins `dict`
semantics; `none` for missing keys and non-objects. -/
def getKey : Json → String → Option Json
  | obj kvs, k => (kvs.filterMap fun p => if p.1 = k then some p.2 else none).getLast?
  | _, _ => none

/-- `k in d` for a JSON object (`False` on non-objects, as
`isinstance(item, dict)` guards every use in the source). -/
def hasKey (j : Json) (k : String) : Bool := (j.getKey k).isSome

/-- `isinstance(x, dict)`. -/
def isObj : Json → Bool
  | obj _ => true
  | _ => false

/-- `isinstance(x, list)`. -/
def isArr : Json → Bool
  | arr _ => true
  | _ => false

/-- Python truthiness of a JSON value (`if bbox:`): empty containers,
empty strings, zero and `None`/`False` are falsy. -/
def truthy : Json → Bool
  | null => false
  | bool b => b
  | num m _ => m != 0
  | str s => s != ""
  | arr xs => !xs.isEmpty
  | obj kvs => !kvs.isEmpty

/-- The numeric value of a JSON number, `none` otherwise (Python raises a
`TypeError` when a non-number reaches arithmetic or `QPointF`). -/
def asNum : Json → Option ℚ
  | num m s => some (qval m s)
  | _ => none

end Json

/-! ## A model of Python's `json.loads`

Recursive-descent parser over `List Char`, with a fuel parameter for the
nesting recursion (every recursive call first consumes at least one
character, so `length + 1` fuel always suffices). -/

/-- JSON whitespace (`json` module: space, tab, newline, carriage return). -/
def isJsonWs (c : Char) : Bool := c = ' ' || c = '\t' || c = '\n' || c = '\r'

/-- Characters that can occur in a JSON number token. -/
def isNumChar (c : Char) : Bool :=
  c.isDigit || c = '-' || c = '+' || c = '.' || c = 'e' || c = 'E'

/-- Digits of a natural number literal. -/
def digitsToNat (l : List Char) : Nat :=
  l.foldl (fun n c => n * 10 + (c.toNat - '0'.toNat)) 0

/-- Split a number token at the exponent marker. -/
def splitExp (l : List Char) : List Char × Option (List Char) :=
  match l.span (fun c => c ≠ 'e' ∧ c ≠ 'E') with
  | (m, []) => (m, none)
  | (m, _ :: e) => (m, some e)

/-- Split the mantissa at the decimal point. -/
def splitFrac (l : List Char) : List Char × Option (List Char) :=
  match l.span (fun c => c ≠ '.') with
  | (i, []) => (i, none)
  | (i, _ :: f) => (i, some f)

/-- JSON integer-part grammar: `0` or a nonzero digit followed by digits
(no leading zeros). -/
def validIntDigits : List Char → Bool
  | [] => false
  | ['0'] => true
  | c :: rest => c.isDigit && c ≠ '0' && rest.all Char.isDigit

/-- Mantissa/scale of a JSON number token
(`-?int(.frac)?([eE][+-]?digits)?`), or `none` if the token violates the
grammar.  The token `d.f e±x` denotes `±(d.f) * 10^±x`, folded into an
integer mantissa and a decimal scale. -/
def parseNumToken (tk : List Char) : Option (Int × Nat) :=
  let (neg, tk) : Bool × List Char :=
    match tk with
    | '-' :: rest => (true, rest)
    | _ => (false, tk)
  let (mant, expPart) := splitExp tk
  let (intPart, fracPart) := splitFrac mant
  if validIntDigits intPart then
    let fracOk : Bool := match fracPart with
      | none => true
      | some f => !f.isEmpty && f.all Char.isDigit
    if fracOk then
      let fracDigits := fracPart.getD []
      let natVal : Nat := digitsToNat (intPart ++ fracDigits)
      let signedVal : Int := if neg then -(natVal : Int) else (natVal : Int)
      match expPart with
      | none => some (signedVal, fracDigits.length)
      | some e =>
        let (eneg, edigits) : Bool × List Char :=
          match e with
          | '+' :: d => (false, d)
          | '-' :: d => (true, d)
          | d => (false, d)
        if !edigits.isEmpty && edigits.all Char.isDigit then
          let eAbs : Nat := digitsToNat edigits
          let exp : Int := (if eneg then -(eAbs : Int) else (eAbs : Int)) - (fracDigits.length : Int)
          if 0 ≤ exp then some (signedVal * (10 : Int) ^ exp.toNat, 0)
          else some (signedVal, (-exp).toNat)
        else none
    else none
  else none

/-- Consume a number token: take the maximal run of number characters and
validate it against the JSON grammar. -/
def parseNum (cs : List Char) : Option (Json × List Char) :=
  match parseNumToken (cs.takeWhile isNumChar) with
  | some (m, s) => some (.num m s, cs.dropWhile isNumChar)
  | none => none

/-- The value of an escape character after a backslash. -/
def escChar : Char → Option Char
  | '"' => some '"'
  | '\\' => some '\\'
  | '/' => some '/'
  | 'b' => some (Char.ofNat 8)
  | 'f' => some (Char.ofNat 12)
  | 'n' => some '\n'
  | 'r' => some '\r'
  | 't' => some '\t'
  | _ => none

/-- Hexadecimal digit value. -/
def hexVal (c : Char) : Option Nat :=
  if c.isDigit then some (c.toNat - '0'.toNat)
  else if 'a' ≤ c ∧ c ≤ 'f' then some (c.toNat - 'a'.toNat + 10)
  else if 'A' ≤ c ∧ c ≤ 'F' then some (c.toNat - 'A'.toNat + 10)
  else none

/-- Body of a JSON string literal, after the opening quote.  Handles the
standard escapes and `\uXXXX` (surrogate pairs are out of scope — no input
in this development uses them); rejects raw control characters as
`json.loads` does in its default strict mode. -/
def parseStringChars : List Char → Option (List Char × List Char)
  | [] => none
  | '"' :: rest => some ([], rest)
  | '\\' :: c :: rest =>
    match escChar c with
    | some d => (parseStringChars rest).map fun (s, r) => (d :: s, r)
    | none =>
      if c = 'u' then
        match rest with
        | h1 :: h2 :: h3 :: h4 :: rest' =>
          match hexVal h1, hexVal h2, hexVal h3, hexVal h4 with
          | some v1, some v2, some v3, some v4 =>
            (parseStringChars rest').map fun (s, r) =>
              (Char.ofNat (((v1 * 16 + v2) * 16 + v3) * 16 + v4) :: s, r)
          | _, _, _, _ => none
        | _ => none
      else none
  | c :: rest =>
    if c.toNat < 32 then none
    else (parseStringChars rest).map fun (s, r) => (c :: s, r)

mutual

/-- One JSON value: skip whitespace, dispatch on the first character. -/
def parseValue : Nat → List Char → Option (Json × List Char)
  | 0, _ => none
  | fuel + 1, cs =>
    match cs.dropWhile isJsonWs with
    | [] => none
    | c :: rest =>
      if c = '{' then
        match (rest.dropWhile isJsonWs) with
        | '}' :: rest' => some (.obj [], rest')
        | _ => parseMembers fuel (rest.dropWhile isJsonWs) []
      else if c = '[' then
        match (rest.dropWhile isJsonWs) with
        | ']' :: rest' => some (.arr [], rest')
        | _ => parseElems fuel (rest.dropWhile isJsonWs) []
      else if c = '"' then
        (parseStringChars rest).map fun (s, r) => (.str (String.mk s), r)
      else if c = 't' then
        if ['r', 'u', 'e'].isPrefixOf rest then some (.bool true, rest.drop 3) else none
      else if c = 'f' then
        if ['a', 'l', 's', 'e'].isPrefixOf rest then some (.bool false, rest.drop 4) else none
      else if c = 'n' then
        if ['u', 'l', 'l'].isPrefixOf rest then some (.null, rest.drop 3) else none
      else if c.isDigit || c = '-' then
        parseNum (c :: rest)
      else none

/-- Members of a JSON object, positioned at the start of a key. -/
def parseMembers (fuel : Nat) (cs : List Char) (acc : List (String × Json)) :
    Option (Json × List Char) :=
  match fuel with
  | 0 => none
  | fuel + 1 =>
    match cs with
    | '"' :: rest =>
      match parseStringChars rest with
      | none => none
      | some (key, rest') =>
        match rest'.dropWhile isJsonWs with
        | ':' :: rest'' =>
          match parseValue fuel rest'' with
          | none => none
          | some (v, rest''') =>
            match rest'''.dropWhile isJsonWs with
            | ',' :: more =>
              parseMembers fuel (more.dropWhile isJsonWs) (acc ++ [(String.mk key, v)])
            | '}' :: more => some (.obj (acc ++ [(String.mk key, v)]), more)
            | _ => none
        | _ => none
    | _ => none

/-- Elements of a JSON array, positioned at the start of an element. -/
def parseElems (fuel : Nat) (cs : List Char) (acc : List Json) :
    Option (Json × List Char) :=
  match fuel with
  | 0 => none
  | fuel + 1 =>
    match parseValue fuel cs with
    | none => none
    | some (v, rest) =>
      match rest.dropWhile isJsonWs with
      | ',' :: more => parseElems fuel more (acc ++ [v])
      | ']' :: more => some (.arr (acc ++ [v]), more)
      | _ => none

end

/-- `json.loads` on a character list: parse one value, then require only
whitespace to remain; any violation raises `JSONDecodeError`, embedded as
`none`. -/
def loadsChars (cs : List Char) : Option Json :=
  match parseValue (cs.length + 1) cs with
  | some (v, rest) => if rest.dropWhile isJsonWs = [] then some v else none
  | none => none

/-- `json.loads` on a string. -/
def loads (s : String) : Option Json := loadsChars s.data

/-! ## The regular-expression scans used by `extract_bbox_data`

The source uses `re.findall` with three patterns.  Each scanner below
implements the exact match semantics of its pattern, derived by hand from
Python `re` semantics; the derivations are recorded at each definition. -/

/-- `\s` of Python `re` (ASCII part): space, tab, newline, carriage
return, vertical tab, form feed. -/
def isPyWs (c : Char) : Bool :=
  c = ' ' || c = '\t' || c = '\n' || c = '\r' || c = Char.ofNat 11 || c = Char.ofNat 12

/-- `\w` of Python `re` (ASCII part): letters, digits, underscore. -/
def isWordChar (c : Char) : Bool := c.isAlphanum || c = '_'

/-- Split a character list at the first occurrence of `tok`
(`tok` nonempty): returns the part before the occurrence and the part
after it, or `none` when `tok` does not occur.  This is the scanning
primitive of `re.findall`: a literal alternative succeeds at the leftmost
position where it matches. -/
def splitAtTok (tok : List Char) : List Char → Option (List Char × List Char)
  | [] => if tok.isEmpty then some ([], []) else none
  | c :: rest =>
    if tok.isPrefixOf (c :: rest) then some ([], (c :: rest).drop tok.length)
    else (splitAtTok tok rest).map fun p => (c :: p.1, p.2)

/-- Remove the maximal whitespace suffix. -/
def dropTrailingWs (l : List Char) : List Char :=
  (l.reverse.dropWhile isPyWs).reverse

/-- The triple-backtick fence. -/
def fenceTok : List Char := ['\x60', '\x60', '\x60']

/-- All captures of `re.findall(r'``` (?:\w+)?\s*(.*?)\s*``` ', text,
re.DOTALL)` (fence written with spaces here; the pattern has none), as in
`extract_bbox_data` method 2 and `_extract_bbox_data` method 2.

Derivation of the match semantics: a match starts at the leftmost
remaining fence.  `(?:\w+)?` and `\s*` are greedy, and since the lazy
`(.*?)` with DOTALL can absorb anything, the overall attempt succeeds iff
a closing fence occurs later; hence the greedy parts keep their maximal
runs (word run, then whitespace run — neither can contain a backtick).
The lazy group then stops at the least `k` from which a pure-whitespace
run reaches a fence.  Any fence later than the first one after the
content start is unreachable (the gap would contain the first fence's
non-whitespace backticks), so the capture extends to the first fence with
its immediately preceding whitespace run stripped.  Scanning resumes
after the closing fence (`findall` returns non-overlapping matches); an
unclosed fence means no further fence exists at all, so scanning stops. -/
def findCodeBlocksAux : Nat → List Char → List (List Char)
  | 0, _ => []
  | fuel + 1, cs =>
    match splitAtTok fenceTok cs with
    | none => []
    | some (_, afterOpen) =>
      let afterWord := afterOpen.dropWhile isWordChar
      let contentStart := afterWord.dropWhile isPyWs
      match splitAtTok fenceTok contentStart with
      | none => []
      | some (content, afterClose) =>
        dropTrailingWs content :: findCodeBlocksAux fuel afterClose

/-- Fenced code blocks of a text (fuel `length + 1` always suffices:
each round consumes at least the six fence characters). -/
def findCodeBlocks (cs : List Char) : List (List Char) :=
  findCodeBlocksAux (cs.length + 1) cs

/-- All captures of `re.findall(r'<answer>(.*?)</answer>', text,
re.DOTALL)`: the lazy group stops at the first closing tag, matches do
not overlap, and an unclosed tag yields no further matches. -/
def findAnswersAux : Nat → List Char → List (List Char)
  | 0, _ => []
  | fuel + 1, cs =>
    match splitAtTok ("<answer>".data) cs with
    | none => []
    | some (_, rest) =>
      match splitAtTok ("</answer>".data) rest with
      | none => []
      | some (content, after) => content :: findAnswersAux fuel after

/-- `<answer>` tag bodies of a text. -/
def findAnswers (cs : List Char) : List (List Char) :=
  findAnswersAux (cs.length + 1) cs

/-! ## `extract_bbox_data` (script lines 35–132, dialog lines 2018–2115;
the two copies are character-for-character identical) -/

/-- A parsed JSON item counts as a detection iff it is a dict with both a
`"bbox_2d"` and a `"label"` key. -/
def isDetection (j : Json) : Bool := j.isObj && j.hasKey "bbox_2d" && j.hasKey "label"

/-- The detections harvested from one parsed JSON value: every qualifying
element of a list, a qualifying dict itself, nothing otherwise. -/
def collectDetections : Json → List Json
  | .arr xs => xs.filter isDetection
  | j => if isDetection j then [j] else []

/-- Method 1: parse the whole content as one JSON value. -/
def method1 (cs : List Char) : List Json :=
  match loadsChars cs with
  | some d => collectDetections d
  | none => []

/-- The loop shared by methods 2 and 3: try each code block in order and
stop at the first one that parses as JSON — the `break` sits inside the
`try` right after a successful `json.loads`, so a block that parses but
contains no detection still ends the loop (with no detections). -/
def tryBlocks : List (List Char) → List Json
  | [] => []
  | b :: bs =>
    match loadsChars b with
    | some d => collectDetections d
    | none => tryBlocks bs

/-- Method 2: fenced code blocks. -/
def method2 (cs : List Char) : List Json := tryBlocks (findCodeBlocks cs)

/-- Method 3's loop over `<answer>` bodies: a body that parses as JSON
ends the loop whether or not it contains detections; a body that does not
parse is scanned for code blocks, and only a nonempty harvest ends the
loop (`if bbox_data: break`). -/
def tryAnswers : List (List Char) → List Json
  | [] => []
  | a :: rest =>
    match loadsChars a with
    | some d => collectDetections d
    | none =>
      let r := tryBlocks (findCodeBlocks a)
      if r.isEmpty then tryAnswers rest else r

/-- Method 3: `<answer>` tags. -/
def method3 (cs : List Char) : List Json := tryAnswers (findAnswers cs)

/-- `[^\s$]`: the character class of method 4's first group. -/
def isM4TokChar (c : Char) : Bool := !isPyWs c && c != '$'

/-- One attempt of the method-4 pattern
`bbox2d\s+([^\s$]+?)\s*$(.*?)$` at the current position (no `re.MULTILINE`,
no `re.DOTALL`).

Derivation: after the literal `bbox2d` and at least one whitespace
character, the lazy `([^\s$]+?)` must grow to the full run of
non-whitespace-non-dollar characters, because the `$` anchor that follows
`\s*` can only succeed at the end of the string (or just before a
terminal newline) and the group cannot cross whitespace to get there.
The anchor therefore succeeds iff everything after the run is whitespace
up to the end of the string.  Both `$` anchors are zero-width and `(.*?)`
is lazy and cannot match a newline, so the second capture is always the
empty string. -/
def m4At (cs : List Char) : Option String :=
  if ("bbox2d".data).isPrefixOf cs then
    match cs.drop 6 with
    | [] => none
    | c :: rest =>
      if isPyWs c then
        let afterWs := (c :: rest).dropWhile isPyWs
        let tok := afterWs.takeWhile isM4TokChar
        if tok.isEmpty then none
        else if (afterWs.drop tok.length).all isPyWs then some (String.mk tok)
        else none
      else none
  else none

/-- All matches of method 4's pattern: `re.findall` tries every start
position from the left; a successful match extends to the end of the
string, so there is at most one. -/
def method4Matches : List Char → List (String × String)
  | [] => []
  | c :: rest =>
    match m4At (c :: rest) with
    | some tok => [(tok, "")]
    | none => method4Matches rest

/-- All matches of `re.findall(r'(\d+(?:\.\d+)?)', s)`: maximal digit
runs, each extended by a fractional part when a dot followed by a digit
comes next. -/
def findNumTokensAux : Nat → List Char → List (List Char)
  | 0, _ => []
  | fuel + 1, cs =>
    match cs with
    | [] => []
    | c :: rest =>
      if c.isDigit then
        let ds := (c :: rest).takeWhile Char.isDigit
        match (c :: rest).dropWhile Char.isDigit with
        | '.' :: d :: r2 =>
          if d.isDigit then
            (ds ++ '.' :: (d :: r2).takeWhile Char.isDigit) ::
              findNumTokensAux fuel ((d :: r2).dropWhile Char.isDigit)
          else ds :: findNumTokensAux fuel ('.' :: d :: r2)
        | r1 => ds :: findNumTokensAux fuel r1
      else findNumTokensAux fuel rest

/-- Numeric tokens of a string. -/
def findNumTokens (cs : List Char) : List (List Char) :=
  findNumTokensAux (cs.length + 1) cs

/-- Python `float` on a token matched by `(\d+(?:\.\d+)?)`, as an exact
scaled decimal. -/
def floatOfToken (tk : List Char) : Json :=
  match splitFrac tk with
  | (i, none) => .num (digitsToNat i : Int) 0
  | (i, some f) => .num (digitsToNat (i ++ f) : Int) f.length

/-- Method 4's per-match processing: `json.loads(f"[{coords_str}]")`,
keep the coordinates when they form a 4-element list; on a parse error,
fall back to the numeric-token scan and keep exactly four tokens.
(`loads` on a bracket-wrapped string returns a list whenever it
succeeds; the non-list case below is unreachable and skips, which is
also what `len(coords) == 4` would decide for a 4-ary check on it.) -/
def method4Items : List (String × String) → List Json
  | [] => []
  | (label, coordsStr) :: rest =>
    match loadsChars ('[' :: (coordsStr.data ++ [']'])) with
    | some (.arr xs) =>
      if xs.length = 4 then
        .obj [("label", .str label), ("bbox_2d", .arr xs)] :: method4Items rest
      else method4Items rest
    | some _ => method4Items rest
    | none =>
      let toks := findNumTokens coordsStr.data
      if toks.length = 4 then
        .obj [("label", .str label), ("bbox_2d", .arr (toks.map floatOfToken))] ::
          method4Items rest
      else method4Items rest

/-- Method 4: the `bbox2d <label> <coords>` inline form. -/
def method4 (cs : List Char) : List Json := method4Items (method4Matches cs)

/-- `extract_bbox_data`: the strictly ordered fallback chain — each later
method runs only when every earlier one produced no detection
(`if not bbox_data:`).  Total by construction: every stage returns a
(possibly empty) list and parse failures select the next stage, which is
the embedding of "internal parse errors are swallowed". -/
def extractChars (cs : List Char) : List Json :=
  let m1 := method1 cs
  if !m1.isEmpty then m1 else
  let m2 := method2 cs
  if !m2.isEmpty then m2 else
  let m3 := method3 cs
  if !m3.isEmpty then m3 else
  method4 cs

/-- `extract_bbox_data` on a string. -/
def extract_bbox_data (s : String) : List Json := extractChars s.data

/-! ## Coordinate conversion

Three conversions exist in the source; they differ, and the theorems
below track each one separately.  All take rational coordinates (exact
for every input used here, see the header). -/

/-- `max(0, min(v, hi))`: the clamp used by every converter. -/
def clampQ (v hi : ℚ) : ℚ := max 0 (min v hi)

/-- `convert_entry_to_xlabel` (script lines 195–217): clamp each
coordinate into bounds, reorder into `xmin/xmax`, `ymin/ymax`, and emit
the corners top-left, top-right, bottom-right, bottom-left. -/
def convert_entry_points (x1 y1 x2 y2 w h : ℚ) : List (ℚ × ℚ) :=
  let cx1 := clampQ x1 w
  let cy1 := clampQ y1 h
  let cx2 := clampQ x2 w
  let cy2 := clampQ y2 h
  let xmin := min cx1 cx2
  let xmax := max cx1 cx2
  let ymin := min cy1 cy2
  let ymax := max cy1 cy2
  [(xmin, ymin), (xmax, ymin), (xmax, ymax), (xmin, ymax)]

/-- `_convert_vlm_r1_ovd_entry_to_xlabel` (dialog lines 1810–1833): when
all four incoming coordinates lie in `[0, 1]` scale x by the width and y
by the height, otherwise take them as pixels; then clamp and emit the
corners in the given order — without any min/max reordering. -/
def vlm_entry_points (b0 b1 b2 b3 w h : ℚ) : List (ℚ × ℚ) :=
  let p : ℚ × ℚ × ℚ × ℚ :=
    if 0 ≤ b0 ∧ b0 ≤ 1 ∧ 0 ≤ b1 ∧ b1 ≤ 1 ∧ 0 ≤ b2 ∧ b2 ≤ 1 ∧ 0 ≤ b3 ∧ b3 ≤ 1 then
      (b0 * w, b1 * h, b2 * w, b3 * h)
    else (b0, b1, b2, b3)
  let x1 := clampQ p.1 w
  let y1 := clampQ p.2.1 h
  let x2 := clampQ p.2.2.1 w
  let y2 := clampQ p.2.2.2 h
  [(x1, y1), (x2, y1), (x2, y2), (x1, y2)]

/-- `generate_xlabel_from_assistant_response` (dialog lines 1442–1470):
clamp each coordinate and emit the corners in the given order — no
normalized-coordinate handling and no min/max reordering. -/
def generate_xlabel_points (x1 y1 x2 y2 w h : ℚ) : List (ℚ × ℚ) :=
  let cx1 := clampQ x1 w
  let cy1 := clampQ y1 h
  let cx2 := clampQ x2 w
  let cy2 := clampQ y2 h
  [(cx1, cy1), (cx2, cy1), (cx2, cy2), (cx1, cy2)]

/-! ## `QwenVL.postprocess` object loop (qwen_vl.py lines 190–243)

The loop turns parsed objects into `Shape`s.  A `Shape` holds its label
(passed through unmodified, whatever JSON value it is) and the points fed
to `QPointF`; `QPointF` on a non-number raises a `TypeError`, which the
surrounding `try` catches — the function then returns the shapes
accumulated so far. -/

/-- A shape as built by `postprocess`: a rectangle gets two corner
points, a keypoint gets one. -/
inductive QShape where
  | rect (label : Json) (p1 p2 : ℚ × ℚ)
  | point (label : Json) (p : ℚ × ℚ)

/-- `obj.get('label', obj.get('class', obj.get('category', 'object')))`. -/
def qwenLabel (o : Json) : Json :=
  ((o.getKey "label").getD ((o.getKey "class").getD
    ((o.getKey "category").getD (.str "object"))))

/-- `obj.get('bbox', obj.get('bounding_box', obj.get('box')))`. -/
def qwenBbox (o : Json) : Option Json :=
  match o.getKey "bbox" with
  | some v => some v
  | none =>
    match o.getKey "bounding_box" with
    | some v => some v
    | none => o.getKey "box"

/-- `obj.get('points', obj.get('landmarks', obj.get('keypoints')))`. -/
def qwenPoints (o : Json) : Option Json :=
  match o.getKey "points" with
  | some v => some v
  | none =>
    match o.getKey "landmarks" with
    | some v => some v
    | none => o.getKey "keypoints"

/-- Outcome of the bounding-box section for one object. -/
inductive RectStep where
  /-- `bbox` missing or falsy: fall through to the points section. -/
  | noBox : RectStep
  /-- `bbox` truthy but neither a 4-list nor a dict: `continue`,
  skipping the points section. -/
  | skipObj : RectStep
  /-- A rectangle shape was appended. -/
  | mkShape (s : QShape) : RectStep
  /-- `TypeError` from a non-numeric coordinate reaching `QPointF`. -/
  | raise : RectStep

/-- The bounding-box section (lines 199–217). -/
def rectStep (o : Json) : RectStep :=
  match qwenBbox o with
  | none => .noBox
  | some bbox =>
    if !bbox.truthy then .noBox
    else
      match bbox with
      | .arr [a, b, c, d] =>
        match a.asNum, b.asNum, c.asNum, d.asNum with
        | some xmin, some ymin, some xmax, some ymax =>
          .mkShape (.rect (qwenLabel o) (xmin, ymin) (xmax, ymax))
        | _, _, _, _ => .raise
      | .obj _ =>
        let xmin := (bbox.getKey "xmin").getD ((bbox.getKey "x1").getD (.num 0 0))
        let ymin := (bbox.getKey "ymin").getD ((bbox.getKey "y1").getD (.num 0 0))
        let xmax := (bbox.getKey "xmax").getD ((bbox.getKey "x2").getD (.num 0 0))
        let ymax := (bbox.getKey "ymax").getD ((bbox.getKey "y2").getD (.num 0 0))
        match xmin.asNum, ymin.asNum, xmax.asNum, ymax.asNum with
        | some a, some b, some c, some d =>
          .mkShape (.rect (qwenLabel o) (a, b) (c, d))
        | _, _, _, _ => .raise
      | _ => .skipObj

/-- The keypoint loop (lines 222–242): one point shape per entry,
processed left to right; a `TypeError` aborts the loop keeping the
shapes already appended (second component: did it raise?). -/
def pointShapes : List Json → List QShape × Bool
  | [] => ([], false)
  | pd :: rest =>
    match pd with
    | .obj kvs =>
      let lbl := ((Json.obj kvs).getKey "label").getD (.str "point")
      let x := ((Json.obj kvs).getKey "x").getD (.num 0 0)
      let y := ((Json.obj kvs).getKey "y").getD (.num 0 0)
      match x.asNum, y.asNum with
      | some xv, some yv =>
        let (s, e) := pointShapes rest
        (.point lbl (xv, yv) :: s, e)
      | _, _ => ([], true)
    | .arr [a, b] =>
      match a.asNum, b.asNum with
      | some xv, some yv =>
        let (s, e) := pointShapes rest
        (.point (.str "point") (xv, yv) :: s, e)
      | _, _ => ([], true)
    | _ => pointShapes rest

/-- The points section for one object (lines 220–242): runs only when
the bounding-box section did not `continue`. -/
def pointsPart (o : Json) : List QShape × Bool :=
  match qwenPoints o with
  | none => ([], false)
  | some pts =>
    if pts.truthy then
      match pts with
      | .arr l => pointShapes l
      | _ => ([], false)
    else ([], false)

/-- Shapes contributed by one object, with the raised flag. -/
def objShapes (o : Json) : List QShape × Bool :=
  match rectStep o with
  | .raise => ([], true)
  | .skipObj => ([], false)
  | .noBox => pointsPart o
  | .mkShape s =>
    let (ps, e) := pointsPart o
    (s :: ps, e)

/-- The whole object loop: non-dicts are skipped (`continue`), and a
raised `TypeError` ends the function with the shapes accumulated so far
(the enclosing `except` returns `shapes`). -/
def processObjects : List Json → List QShape
  | [] => []
  | o :: rest =>
    if !o.isObj then processObjects rest
    else
      let (shs, raised) := objShapes o
      if raised then shs else shs ++ processObjects rest

/-! ## The streaming channel (dialog lines 2744–2791) -/

/-- Modelled from the spec: the class `StreamingHandler` is imported
from a module that is not among the sources at hand; per the spec it is
the thread-safe FIFO channel into the foreground event context carrying
incremental text chunks and terminal events — `append_text` emits a
chunk and accumulates it, `report_error` emits an error event, and
`finished.emit(b)` emits a terminal event with success flag `b`;
`get_current_message` reads the accumulated text.  This type is one
event crossing that channel. -/
inductive ChanEvent where
  | chunk (s : String) : ChanEvent
  | errorOccurred (msg : String) : ChanEvent
  | finished (ok : Bool) : ChanEvent

/-- Terminal events of a turn (`finished.emit`, handled by
`on_stream_finished`). -/
def ChanEvent.isTerminal : ChanEvent → Bool
  | .finished _ => true
  | _ => false

/-- Successful terminal events. -/
def ChanEvent.isSuccess : ChanEvent → Bool
  | .finished true => true
  | _ => false

/-- Failure terminal events. -/
def ChanEvent.isFailure : ChanEvent → Bool
  | .finished false => true
  | _ => false

/-- Events emitted by the worker thread of `stream_generation`
(lines 2765–2786) in a run without a transport error: one chunk per
upstream chunk until `stop_requested` is observed at the top of the
loop, then — cancelled or not — `finished.emit(True)`.
`stopAt = some k` means the flag was observed before processing chunk
`k`; `none` means it was never observed. -/
def workerEvents (chunks : List String) (stopAt : Option Nat) : List ChanEvent :=
  match stopAt with
  | none => chunks.map .chunk ++ [.finished true]
  | some k => (chunks.take k).map .chunk ++ [.finished true]

/-- Events emitted by the worker when iterating the response raises a
transport/model error after `errBefore` chunks (lines 2788–2791):
`report_error(str(e))` then `finished.emit(False)`. -/
def workerErrorEvents (chunks : List String) (errBefore : Nat) (msg : String) :
    List ChanEvent :=
  (chunks.take errBefore).map .chunk ++ [.errorOccurred msg, .finished false]

/-- Events emitted by the cancellation poller thread
(`check_for_cancellation`, lines 2747–2759): if it observes
`stop_requested` it emits `report_error("Request cancelled by user")`
when no text has accumulated yet, and always `finished.emit(False)`;
otherwise nothing.  `accumulated` is `get_current_message()` at the
moment of observation. -/
def cancelThreadEvents (observed : Bool) (accumulated : String) : List ChanEvent :=
  if observed then
    (if accumulated = "" then [.errorOccurred "Request cancelled by user"] else [])
      ++ [.finished false]
  else []

/-! ## The foreground state machine

`update_output` (lines 1217–1243), `handle_error` (lines 2826–2843),
`on_stream_finished` (lines 1245–1299) and `add_message`
(lines 1025–1076) as one step function over the delivered event
sequence.  Covers messages without the `@image` placeholder (none of the
contents below contain it), so `add_message` stores `image = None`,
omitted here. -/

/-- A chat-history entry. -/
structure Msg where
  role : String
  content : String
  deriving DecidableEq

/-- Foreground state of one streaming turn. -/
structure FgState where
  /-- `self.chat_history`. -/
  history : List Msg
  /-- Is `self.loading_message` set? -/
  loading : Bool
  /-- The loading widget's `content_label` text (`none` before the first
  chunk creates the label). -/
  contentLabel : Option String
  /-- Error texts shown by `handle_error`. -/
  displayedErrors : List String
  /-- `self.streaming`. -/
  streaming : Bool
  deriving DecidableEq

/-- `add_message` (lines 1056–1065): `delete_last_message` rolls the
last entry back instead of appending. -/
def addMessage (role content : String) (deleteLast : Bool) (st : FgState) : FgState :=
  if deleteLast then { st with history := st.history.dropLast }
  else { st with history := st.history ++ [⟨role, content⟩] }

/-- One delivered event (queued signal) processed by the foreground. -/
def fgStep (st : FgState) (e : ChanEvent) : FgState :=
  match e with
  | .chunk s =>
    -- update_output: append to the loading widget's content label.
    if st.loading then
      { st with contentLabel := some ((st.contentLabel.getD "") ++ s) }
    else st
  | .errorOccurred m =>
    -- handle_error: only if the loading message still exists — remove
    -- it, show the error, and roll back the last history entry.
    if st.loading then
      addMessage "assistant" ("Error: " ++ m) true
        { st with
            loading := false
            contentLabel := none
            displayedErrors := st.displayedErrors ++ ["Error: " ++ m] }
    else st
  | .finished ok =>
    -- on_stream_finished: commit the accumulated text as the assistant
    -- message only on success with the loading message still present.
    if ok && st.loading then
      addMessage "assistant" ((st.contentLabel.getD "")) false
        { st with loading := false, contentLabel := none, streaming := false }
    else { st with streaming := false }

/-- Process a delivered event sequence. -/
def fgRun (events : List ChanEvent) (st : FgState) : FgState :=
  events.foldl fgStep st

/-- `start_generation` (lines 1086–1132): append the user message, show
the loading widget, reset the handler, set `streaming`. -/
def startTurn (h0 : List Msg) (userText : String) : FgState :=
  { history := h0 ++ [⟨"user", userText⟩]
    loading := true
    contentLabel := none
    displayedErrors := []
    streaming := true }

/-! ## The persisted-file write (dialog lines 1595–1596 and 1480–1481)

`save_chat_history_with_prefix` and
`generate_xlabel_from_assistant_response` both persist with
`open(path, 'w')` followed by `json.dump(...)`.  Modelled by CPython
file semantics: opening with mode `'w'` truncates the file at once, and
the dump then streams the serialized document in successive chunks.  A
failure part-way stops the primitive-operation sequence after a prefix. -/

/-- Content of the file at the target path after the first `k` primitive
operations of the write complete, starting from previous content `old`:
`k = 0` is before the truncating open, `k = 1` just after it, and each
further step appends one chunk of the new document. -/
def fileAfterSteps (old : String) (chunks : List String) (k : Nat) : String :=
  match k with
  | 0 => old
  | k + 1 => String.join (chunks.take k)

/-- Number of primitive operations of a complete write. -/
def writeStepCount (chunks : List String) : Nat := chunks.length + 1

/-! ## Concrete data shared by the theorems -/

/-- The literal `'{"label":"cat","bbox_2d":[10,20,30,40]}'`. -/
def catJsonText : String := "\x7b\"label\":\"cat\",\"bbox_2d\":[10,20,30,40]\x7d"

/-- The detection record that `json.loads` produces from `catJsonText`. -/
def catDetection : Json :=
  .obj [("label", .str "cat"), ("bbox_2d", .arr [.num 10 0, .num 20 0, .num 30 0, .num 40 0])]

/-- A fenced code block (with a `json` language tag) containing
`catJsonText`. -/
def fencedCat : List Char :=
  fenceTok ++ "json\n".data ++ catJsonText.data ++ '\n' :: fenceTok

/-- Characters that plain surrounding prose is made of: anything except
a backtick, an opening brace, an opening bracket, or a double quote —
the characters that can open a code fence or start a JSON container. -/
def proseChar (c : Char) : Prop :=
  c ≠ '\x60' ∧ c ≠ '\x7b' ∧ c ≠ '[' ∧ c ≠ '"'

/-- A prose fragment. -/
def IsProse (l : List Char) : Prop := ∀ c ∈ l, proseChar c

/-- Prose that additionally opens no `<answer>` tag. -/
def IsPlainText (l : List Char) : Prop := IsProse l ∧ ∀ c ∈ l, c ≠ '<'

instance : DecidablePred proseChar := fun _ => by unfold proseChar; infer_instance

instance (l : List Char) : Decidable (IsProse l) := by unfold IsProse; infer_instance

instance (l : List Char) : Decidable (IsPlainText l) := by unfold IsPlainText; infer_instance

/-! ## Clamp lemmas -/

theorem clampQ_nonneg (v hi : ℚ) : 0 ≤ clampQ v hi := le_max_left 0 _

theorem clampQ_le_right (v : ℚ) {hi : ℚ} (h : 0 ≤ hi) : clampQ v hi ≤ hi :=
  max_le h (min_le_right v hi)

theorem clampQ_of_le {v hi : ℚ} (h0 : 0 ≤ v) (h1 : v ≤ hi) : clampQ v hi = v := by
  unfold clampQ
  rw [min_eq_left h1, max_eq_right h0]

theorem clampQ_mono {v v' : ℚ} (hi : ℚ) (h : v ≤ v') : clampQ v hi ≤ clampQ v' hi :=
  max_le_max (le_refl 0) (min_le_min h (le_refl hi))

/-! ## Lemmas about the JSON parser on prose -/

/-- The whitespace-skipping dispatch of `parseValue`, as an equation. -/
theorem parseValue_cons {n : Nat} {cs : List Char} {c : Char} {rest : List Char}
    (h : cs.dropWhile isJsonWs = c :: rest) :
    parseValue (n + 1) cs =
      (if c = '\x7b' then
        match (rest.dropWhile isJsonWs) with
        | '\x7d' :: rest' => some (.obj [], rest')
        | _ => parseMembers n (rest.dropWhile isJsonWs) []
      else if c = '[' then
        match (rest.dropWhile isJsonWs) with
        | ']' :: rest' => some (.arr [], rest')
        | _ => parseElems n (rest.dropWhile isJsonWs) []
      else if c = '"' then
        (parseStringChars rest).map fun (s, r) => (.str (String.mk s), r)
      else if c = 't' then
        if ['r', 'u', 'e'].isPrefixOf rest then some (.bool true, rest.drop 3) else none
      else if c = 'f' then
        if ['a', 'l', 's', 'e'].isPrefixOf rest then some (.bool false, rest.drop 4) else none
      else if c = 'n' then
        if ['u', 'l', 'l'].isPrefixOf rest then some (.null, rest.drop 3) else none
      else if c.isDigit || c = '-' then
        parseNum (c :: rest)
      else none) := by
  unfold parseValue
  rw [h]

theorem dropWhile_head_false {p : Char → Bool} :
    ∀ {l : List Char} {c : Char} {r : List Char}, l.dropWhile p = c :: r → p c = false := by
  intro l
  induction l with
  | nil => intro c r h; exact absurd h (by simp)
  | cons a l' ih =>
    intro c r h
    rw [List.dropWhile_cons] at h
    by_cases ha : p a
    · rw [if_pos ha] at h
      exact ih h
    · rw [if_neg ha] at h
      cases h
      simp at ha
      exact ha

theorem mem_dropWhile_of_not {p : Char → Bool} {a : Char} :
    ∀ {l : List Char}, a ∈ l → p a = false → a ∈ l.dropWhile p := by
  intro l
  induction l with
  | nil => intro h _; simp at h
  | cons c rest ih =>
    intro hmem hpa
    rw [List.dropWhile_cons]
    by_cases hc : p c
    · rw [if_pos hc]
      rcases List.mem_cons.mp hmem with rfl | h
      · rw [hpa] at hc
        exact absurd hc (by simp)
      · exact ih h hpa
    · rw [if_neg hc]
      exact hmem

/-- A value parse starting at a prose character either fails or returns
a scalar (never a dict or a list), consuming no backtick along the way:
prose excludes the characters that open containers or strings, and the
literal/number tokens cannot contain a backtick. -/
theorem parseValue_prose_head {n : Nat} {cs : List Char} {c : Char} {rest : List Char}
    (h : cs.dropWhile isJsonWs = c :: rest) (hc : proseChar c) :
    parseValue (n + 1) cs = none ∨
      ∃ v t, parseValue (n + 1) cs = some (v, t) ∧
        v.isObj = false ∧ v.isArr = false ∧ ('\x60' ∈ rest → '\x60' ∈ t) := by
  obtain ⟨hbt, hbrace, hbrk, hquote⟩ := hc
  rw [parseValue_cons h, if_neg hbrace, if_neg hbrk, if_neg hquote]
  by_cases ht : c = 't'
  · rw [if_pos ht]
    by_cases hp : (['r', 'u', 'e'].isPrefixOf rest : Bool)
    · rw [if_pos hp]
      right
      refine ⟨.bool true, rest.drop 3, rfl, rfl, rfl, ?_⟩
      intro hmem
      obtain ⟨tl, htl⟩ := List.isPrefixOf_iff_prefix.mp hp
      rw [← htl] at hmem ⊢
      simpa using hmem
    · rw [if_neg hp]
      exact Or.inl rfl
  · rw [if_neg ht]
    by_cases hf : c = 'f'
    · rw [if_pos hf]
      by_cases hp : (['a', 'l', 's', 'e'].isPrefixOf rest : Bool)
      · rw [if_pos hp]
        right
        refine ⟨.bool false, rest.drop 4, rfl, rfl, rfl, ?_⟩
        intro hmem
        obtain ⟨tl, htl⟩ := List.isPrefixOf_iff_prefix.mp hp
        rw [← htl] at hmem ⊢
        simpa using hmem
      · rw [if_neg hp]
        exact Or.inl rfl
    · rw [if_neg hf]
      by_cases hn : c = 'n'
      · rw [if_pos hn]
        by_cases hp : (['u', 'l', 'l'].isPrefixOf rest : Bool)
        · rw [if_pos hp]
          right
          refine ⟨.null, rest.drop 3, rfl, rfl, rfl, ?_⟩
          intro hmem
          obtain ⟨tl, htl⟩ := List.isPrefixOf_iff_prefix.mp hp
          rw [← htl] at hmem ⊢
          simpa using hmem
        · rw [if_neg hp]
          exact Or.inl rfl
      · rw [if_neg hn]
        by_cases hd : (c.isDigit || c = '-' : Bool)
        · rw [if_pos hd]
          unfold parseNum
          cases htk : parseNumToken ((c :: rest).takeWhile isNumChar) with
          | none => exact Or.inl rfl
          | some ms =>
            obtain ⟨m, s⟩ := ms
            right
            refine ⟨.num m s, (c :: rest).dropWhile isNumChar, rfl, rfl, rfl, ?_⟩
            intro hmem
            exact mem_dropWhile_of_not (List.mem_cons_of_mem c hmem) rfl
        · rw [if_neg hd]
          exact Or.inl rfl

theorem collectDetections_scalar {v : Json} (ho : v.isObj = false) (ha : v.isArr = false) :
    collectDetections v = [] := by
  cases v with
  | arr xs => simp [Json.isArr] at ha
  | obj kvs => simp [Json.isObj] at ho
  | null => rfl
  | bool b => rfl
  | num m s => rfl
  | str s => rfl

theorem loadsChars_eq_of_parse_some {cs : List Char} {v : Json} {t : List Char}
    (h : parseValue (cs.length + 1) cs = some (v, t)) :
    loadsChars cs = if t.dropWhile isJsonWs = [] then some v else none := by
  unfold loadsChars
  rw [h]

theorem loadsChars_eq_of_parse_none {cs : List Char}
    (h : parseValue (cs.length + 1) cs = none) : loadsChars cs = none := by
  unfold loadsChars
  rw [h]

theorem method1_eq_of_loads_none {cs : List Char} (h : loadsChars cs = none) :
    method1 cs = [] := by
  unfold method1
  rw [h]

theorem method1_eq_of_loads_some {cs : List Char} {v : Json} (h : loadsChars cs = some v) :
    method1 cs = collectDetections v := by
  unfold method1
  rw [h]

/-- Whole-text parsing of a pure prose text never yields detections: the
parse either fails or returns a scalar, and scalars carry no box. -/
theorem method1_prose {l : List Char} (hp : IsProse l) : method1 l = [] := by
  cases hd : l.dropWhile isJsonWs with
  | nil =>
    exact method1_eq_of_loads_none (loadsChars_eq_of_parse_none (by unfold parseValue; rw [hd]))
  | cons c rest =>
    have hcmem : c ∈ l := (List.dropWhile_sublist isJsonWs).subset (hd ▸ List.mem_cons_self c rest)
    rcases parseValue_prose_head hd (hp c hcmem) with hnone | ⟨v, t, heq, ho, ha, _⟩
    · exact method1_eq_of_loads_none (loadsChars_eq_of_parse_none hnone)
    · by_cases hrest : t.dropWhile isJsonWs = []
      · rw [method1_eq_of_loads_some (by rw [loadsChars_eq_of_parse_some heq, if_pos hrest])]
        exact collectDetections_scalar ho ha
      · exact method1_eq_of_loads_none (by rw [loadsChars_eq_of_parse_some heq, if_neg hrest])

/-- `json.loads` fails outright on prose followed by a backtick-opened
remainder: the backtick can never be consumed, so the whole-text parse
cannot succeed. -/
theorem loadsChars_prose_backtick {pre tail : List Char} (hp : IsProse pre) :
    loadsChars (pre ++ '\x60' :: tail) = none := by
  cases hd : (pre ++ '\x60' :: tail).dropWhile isJsonWs with
  | nil =>
    exact loadsChars_eq_of_parse_none (by unfold parseValue; rw [hd])
  | cons c rest =>
    rw [List.dropWhile_append] at hd
    by_cases he : (pre.dropWhile isJsonWs).isEmpty
    · rw [if_pos he] at hd
      rw [List.dropWhile_cons, if_neg (by simp [isJsonWs])] at hd
      refine loadsChars_eq_of_parse_none ?_
      rw [parseValue_cons (show (pre ++ '\x60' :: tail).dropWhile isJsonWs = '\x60' :: tail by
        rw [List.dropWhile_append, if_pos he, List.dropWhile_cons, if_neg (by simp [isJsonWs])])]
      rfl
    · rw [if_neg he] at hd
      obtain ⟨c', pre₀, hpre₀⟩ : ∃ c' pre₀, pre.dropWhile isJsonWs = c' :: pre₀ := by
        cases hpp : pre.dropWhile isJsonWs with
        | nil => rw [hpp] at he; simp at he
        | cons a b => exact ⟨a, b, rfl⟩
      rw [hpre₀, List.cons_append] at hd
      injection hd with h1 h2
      subst h1
      subst h2
      have hcmem : c' ∈ pre :=
        (List.dropWhile_sublist isJsonWs).subset (hpre₀ ▸ List.mem_cons_self c' pre₀)
      have hd' : (pre ++ '\x60' :: tail).dropWhile isJsonWs = c' :: (pre₀ ++ '\x60' :: tail) := by
        rw [List.dropWhile_append, if_neg he, hpre₀, List.cons_append]
      rcases parseValue_prose_head hd' (hp c' hcmem) with hnone | ⟨v, t, heq, ho, ha, hbtprop⟩
      · exact loadsChars_eq_of_parse_none hnone
      · have hbtt : '\x60' ∈ t := hbtprop (by simp)
        rw [loadsChars_eq_of_parse_some heq,
          if_neg (List.ne_nil_of_mem (mem_dropWhile_of_not hbtt rfl))]

/-! ## Lemmas about the regex scanners -/

theorem splitAtTok_here {t0 : Char} {tok' rest : List Char} :
    splitAtTok (t0 :: tok') ((t0 :: tok') ++ rest) = some ([], rest) := by
  show splitAtTok (t0 :: tok') (t0 :: (tok' ++ rest)) = some ([], rest)
  unfold splitAtTok
  have hpre : (t0 :: tok').isPrefixOf (t0 :: (tok' ++ rest)) = true :=
    List.isPrefixOf_iff_prefix.mpr (List.prefix_append _ _)
  rw [if_pos hpre]
  have hdrop : (t0 :: (tok' ++ rest)).drop (t0 :: tok').length = rest := by
    show ((t0 :: tok') ++ rest).drop (t0 :: tok').length = rest
    exact List.drop_left _ _
  rw [hdrop]

theorem splitAtTok_skip {t0 c : Char} {tok' l : List Char} (hne : c ≠ t0) :
    splitAtTok (t0 :: tok') (c :: l) =
      (splitAtTok (t0 :: tok') l).map fun p => (c :: p.1, p.2) := by
  conv_lhs => unfold splitAtTok
  rw [if_neg ?hpre]
  case hpre =>
    intro hpre
    obtain ⟨t, ht⟩ := List.isPrefixOf_iff_prefix.mp hpre
    rw [List.cons_append] at ht
    injection ht with h1 _
    exact hne h1.symm

theorem splitAtTok_append {t0 : Char} {tok' rest : List Char} :
    ∀ {pre : List Char}, (∀ c ∈ pre, c ≠ t0) →
      splitAtTok (t0 :: tok') (pre ++ ((t0 :: tok') ++ rest)) = some (pre, rest) := by
  intro pre
  induction pre with
  | nil => intro _; simpa using splitAtTok_here
  | cons c pre' ih =>
    intro h
    rw [List.cons_append, splitAtTok_skip (h c (by simp)),
      ih (fun x hx => h x (by simp [hx]))]
    rfl

theorem splitAtTok_eq_none {t0 : Char} {tok' : List Char} :
    ∀ {l : List Char}, (∀ c ∈ l, c ≠ t0) → splitAtTok (t0 :: tok') l = none := by
  intro l
  induction l with
  | nil => intro _; rfl
  | cons c l' ih =>
    intro h
    rw [splitAtTok_skip (h c (by simp)), ih (fun x hx => h x (by simp [hx]))]
    rfl

theorem findCodeBlocksAux_nil {l : List Char} (h : ∀ c ∈ l, c ≠ '\x60') :
    ∀ fuel, findCodeBlocksAux fuel l = [] := by
  intro fuel
  cases fuel with
  | zero => rfl
  | succ n =>
    unfold findCodeBlocksAux
    rw [show fenceTok = '\x60' :: ['\x60', '\x60'] from rfl, splitAtTok_eq_none h]

theorem findAnswersAux_nil {l : List Char} (h : ∀ c ∈ l, c ≠ '<') :
    ∀ fuel, findAnswersAux fuel l = [] := by
  intro fuel
  cases fuel with
  | zero => rfl
  | succ n =>
    unfold findAnswersAux
    rw [show "<answer>".data = '<' :: "answer>".data from rfl, splitAtTok_eq_none h]

theorem findCodeBlocksAux_step {fuel : Nat} {cs before afterOpen content afterClose : List Char}
    (h1 : splitAtTok fenceTok cs = some (before, afterOpen))
    (h2 : splitAtTok fenceTok ((afterOpen.dropWhile isWordChar).dropWhile isPyWs) =
      some (content, afterClose)) :
    findCodeBlocksAux (fuel + 1) cs =
      dropTrailingWs content :: findCodeBlocksAux fuel afterClose := by
  conv_lhs => unfold findCodeBlocksAux
  simp only [h1, h2]

/-- The code-block scan of a text made of backtick-free prose around the
fenced `catJsonText` block finds exactly that block, with the language
tag consumed and the whitespace trimmed. -/
theorem findCodeBlocks_fencedCat {pre suf : List Char}
    (hpre : ∀ c ∈ pre, c ≠ '\x60') (hsuf : ∀ c ∈ suf, c ≠ '\x60') :
    findCodeBlocks (pre ++ fencedCat ++ suf) = [catJsonText.data] := by
  have h1 : splitAtTok fenceTok (pre ++ fencedCat ++ suf) =
      some (pre, "json\n".data ++ (catJsonText.data ++ ('\n' :: (fenceTok ++ suf)))) := by
    have hcs : pre ++ fencedCat ++ suf =
        pre ++ (('\x60' :: ['\x60', '\x60']) ++
          ("json\n".data ++ (catJsonText.data ++ ('\n' :: (fenceTok ++ suf))))) := by
      simp [fencedCat, fenceTok, List.append_assoc]
    rw [hcs, show fenceTok = '\x60' :: ['\x60', '\x60'] from rfl]
    exact splitAtTok_append hpre
  have hred : ((("json\n".data ++ (catJsonText.data ++ ('\n' :: (fenceTok ++ suf)))).dropWhile
      isWordChar).dropWhile isPyWs) =
      (catJsonText.data ++ ['\n']) ++ (('\x60' :: ['\x60', '\x60']) ++ suf) := by
    rfl
  have h2 : splitAtTok fenceTok ((("json\n".data ++ (catJsonText.data ++ ('\n' ::
      (fenceTok ++ suf)))).dropWhile isWordChar).dropWhile isPyWs) =
      some (catJsonText.data ++ ['\n'], suf) := by
    rw [hred, show fenceTok = '\x60' :: ['\x60', '\x60'] from rfl]
    exact splitAtTok_append (by decide)
  unfold findCodeBlocks
  rw [findCodeBlocksAux_step h1 h2, findCodeBlocksAux_nil hsuf]
  have htrim : dropTrailingWs (catJsonText.data ++ ['\n']) = catJsonText.data := by decide
  rw [htrim]

/-! ## Lemmas about method 4 -/

/-- Every match of the method-4 pattern captures the empty coordinate
string (both `$` anchors sit at the end of the input). -/
theorem method4Matches_shape :
    ∀ cs : List Char, method4Matches cs = [] ∨ ∃ t, method4Matches cs = [(t, "")] := by
  intro cs
  induction cs with
  | nil => exact Or.inl rfl
  | cons c rest ih =>
    unfold method4Matches
    cases h : m4At (c :: rest) with
    | some tok => exact Or.inr ⟨tok, rfl⟩
    | none => exact ih

/-- Method 4 contributes no record on any input: the captured coordinate
string is always empty, `json.loads("[]")` succeeds with a 0-element
list, and the 4-element check fails. -/
theorem method4_eq_nil (cs : List Char) : method4 cs = [] := by
  rcases method4Matches_shape cs with h | ⟨t, h⟩ <;> unfold method4 <;> rw [h] <;> rfl

/-! ## C4 — normalized-coordinate scaling -/

/-- C4, counterexample: the claim says the coordinate normalizer treats a
box whose four coordinates lie in `[0,1]` as normalized and scales it —
in particular `0.5,0.5,1.0,1.0` on a `1024×538` image becomes
`512,269,1024,538`.  The standalone script's converter
(`convert_entry_to_xlabel`) has no such rule: on that very box it merely
clamps, leaving the fractional coordinates untouched. -/
theorem c4_counterexample :
    convert_entry_points (1/2) (1/2) 1 1 1024 538 ≠
      [((512 : ℚ), (269 : ℚ)), (1024, 269), (1024, 538), (512, 538)] ∧
    convert_entry_points (1/2) (1/2) 1 1 1024 538 =
      [((1/2 : ℚ), (1/2 : ℚ)), (1, 1/2), (1, 1), (1/2, 1)] := by
  constructor <;> norm_num [convert_entry_points, clampQ]

/-- C4, amended: the chatbot-side converter
(`_convert_vlm_r1_ovd_entry_to_xlabel`) treats a box with all four
coordinates in `[0,1]` as normalized, scaling x by the width and y by
the height (so `0.5,0.5,1.0,1.0` on a `1024×538` image yields
`512,269,1024,538`), and treats any other box as pixel coordinates;
the standalone script's `convert_entry_to_xlabel` applies no
normalized-coordinate scaling at all. -/
theorem c4_amended_normalized_scaling :
    (∀ b0 b1 b2 b3 w h : ℚ,
      0 ≤ b0 → b0 ≤ 1 → 0 ≤ b1 → b1 ≤ 1 → 0 ≤ b2 → b2 ≤ 1 → 0 ≤ b3 → b3 ≤ 1 →
      0 ≤ w → 0 ≤ h →
      vlm_entry_points b0 b1 b2 b3 w h =
        [(b0 * w, b1 * h), (b2 * w, b1 * h), (b2 * w, b3 * h), (b0 * w, b3 * h)]) ∧
    (∀ b0 b1 b2 b3 w h : ℚ,
      ¬(0 ≤ b0 ∧ b0 ≤ 1 ∧ 0 ≤ b1 ∧ b1 ≤ 1 ∧ 0 ≤ b2 ∧ b2 ≤ 1 ∧ 0 ≤ b3 ∧ b3 ≤ 1) →
      vlm_entry_points b0 b1 b2 b3 w h =
        [(clampQ b0 w, clampQ b1 h), (clampQ b2 w, clampQ b1 h),
         (clampQ b2 w, clampQ b3 h), (clampQ b0 w, clampQ b3 h)]) ∧
    vlm_entry_points (1/2) (1/2) 1 1 1024 538 =
      [((512 : ℚ), (269 : ℚ)), (1024, 269), (1024, 538), (512, 538)] ∧
    convert_entry_points (1/2) (1/2) 1 1 1024 538 =
      [((1/2 : ℚ), (1/2 : ℚ)), (1, 1/2), (1, 1), (1/2, 1)] := by
  refine ⟨?_, ?_, ?_, ?_⟩
  · intro b0 b1 b2 b3 w h hb0 hb0' hb1 hb1' hb2 hb2' hb3 hb3' hw hh
    have e0 : clampQ (b0 * w) w = b0 * w :=
      clampQ_of_le (mul_nonneg hb0 hw) (mul_le_of_le_one_left hw hb0')
    have e1 : clampQ (b1 * h) h = b1 * h :=
      clampQ_of_le (mul_nonneg hb1 hh) (mul_le_of_le_one_left hh hb1')
    have e2 : clampQ (b2 * w) w = b2 * w :=
      clampQ_of_le (mul_nonneg hb2 hw) (mul_le_of_le_one_left hw hb2')
    have e3 : clampQ (b3 * h) h = b3 * h :=
      clampQ_of_le (mul_nonneg hb3 hh) (mul_le_of_le_one_left hh hb3')
    simp only [vlm_entry_points,
      if_pos (⟨hb0, hb0', hb1, hb1', hb2, hb2', hb3, hb3'⟩ :
        0 ≤ b0 ∧ b0 ≤ 1 ∧ 0 ≤ b1 ∧ b1 ≤ 1 ∧ 0 ≤ b2 ∧ b2 ≤ 1 ∧ 0 ≤ b3 ∧ b3 ≤ 1)]
    simp [e0, e1, e2, e3]
  · intro b0 b1 b2 b3 w h hno
    simp only [vlm_entry_points, if_neg hno]
  · norm_num [vlm_entry_points, clampQ]
  · norm_num [convert_entry_points, clampQ]

/-- C4 witness: the amended theorem applied to the normalized box
`(1/4, 1/4, 1/2, 3/4)` on a `100×200` image. -/
theorem c4_amended_witness :
    vlm_entry_points (1/4) (1/4) (1/2) (3/4) 100 200 =
      [((1/4 : ℚ) * 100, (1/4 : ℚ) * 200), ((1/2 : ℚ) * 100, (1/4 : ℚ) * 200),
       ((1/2 : ℚ) * 100, (3/4 : ℚ) * 200), ((1/4 : ℚ) * 100, (3/4 : ℚ) * 200)] :=
  c4_amended_normalized_scaling.1 (1/4) (1/4) (1/2) (3/4) 100 200
    (by norm_num) (by norm_num) (by norm_num) (by norm_num) (by norm_num)
    (by norm_num) (by norm_num) (by norm_num) (by norm_num) (by norm_num)

/-! ## C5 — output coordinates stay within the image bounds -/

/-- C5: every output point of each of the three converters lies in
`[0, w] × [0, h]`, for every input box — including boxes whose pixel
coordinates exceed the image bounds. -/
theorem c5_output_within_bounds :
    ∀ (x1 y1 x2 y2 w h : ℚ) (p : ℚ × ℚ), 0 ≤ w → 0 ≤ h →
      (p ∈ convert_entry_points x1 y1 x2 y2 w h ∨
       p ∈ vlm_entry_points x1 y1 x2 y2 w h ∨
       p ∈ generate_xlabel_points x1 y1 x2 y2 w h) →
      0 ≤ p.1 ∧ p.1 ≤ w ∧ 0 ≤ p.2 ∧ p.2 ≤ h := by
  intro x1 y1 x2 y2 w h p hw hh hp
  have bx : ∀ v : ℚ, 0 ≤ clampQ v w ∧ clampQ v w ≤ w := fun v =>
    ⟨clampQ_nonneg v w, clampQ_le_right v hw⟩
  have byy : ∀ v : ℚ, 0 ≤ clampQ v h ∧ clampQ v h ≤ h := fun v =>
    ⟨clampQ_nonneg v h, clampQ_le_right v hh⟩
  have bminx : ∀ a b : ℚ, 0 ≤ min (clampQ a w) (clampQ b w) ∧ min (clampQ a w) (clampQ b w) ≤ w :=
    fun a b => ⟨le_min (bx a).1 (bx b).1, le_trans (min_le_left _ _) (bx a).2⟩
  have bmaxx : ∀ a b : ℚ, 0 ≤ max (clampQ a w) (clampQ b w) ∧ max (clampQ a w) (clampQ b w) ≤ w :=
    fun a b => ⟨le_trans (bx a).1 (le_max_left _ _), max_le (bx a).2 (bx b).2⟩
  have bminy : ∀ a b : ℚ, 0 ≤ min (clampQ a h) (clampQ b h) ∧ min (clampQ a h) (clampQ b h) ≤ h :=
    fun a b => ⟨le_min (byy a).1 (byy b).1, le_trans (min_le_left _ _) (byy a).2⟩
  have bmaxy : ∀ a b : ℚ, 0 ≤ max (clampQ a h) (clampQ b h) ∧ max (clampQ a h) (clampQ b h) ≤ h :=
    fun a b => ⟨le_trans (byy a).1 (le_max_left _ _), max_le (byy a).2 (byy b).2⟩
  rcases hp with hp | hp | hp
  · simp only [convert_entry_points, List.mem_cons, List.not_mem_nil, or_false] at hp
    rcases hp with rfl | rfl | rfl | rfl
    · exact ⟨(bminx _ _).1, (bminx _ _).2, (bminy _ _).1, (bminy _ _).2⟩
    · exact ⟨(bmaxx _ _).1, (bmaxx _ _).2, (bminy _ _).1, (bminy _ _).2⟩
    · exact ⟨(bmaxx _ _).1, (bmaxx _ _).2, (bmaxy _ _).1, (bmaxy _ _).2⟩
    · exact ⟨(bminx _ _).1, (bminx _ _).2, (bmaxy _ _).1, (bmaxy _ _).2⟩
  · simp only [vlm_entry_points, List.mem_cons, List.not_mem_nil, or_false] at hp
    rcases hp with rfl | rfl | rfl | rfl <;>
      exact ⟨(bx _).1, (bx _).2, (byy _).1, (byy _).2⟩
  · simp only [generate_xlabel_points, List.mem_cons, List.not_mem_nil, or_false] at hp
    rcases hp with rfl | rfl | rfl | rfl <;>
      exact ⟨(bx _).1, (bx _).2, (byy _).1, (byy _).2⟩

/-- C5 witness: the bound theorem applied to a box far outside a
`1024×538` image; the script converter maps it to the corner
`(1024, 0)`. -/
theorem c5_witness :
    0 ≤ ((1024 : ℚ), (0 : ℚ)).1 ∧ ((1024 : ℚ), (0 : ℚ)).1 ≤ 1024 ∧
    0 ≤ ((1024 : ℚ), (0 : ℚ)).2 ∧ ((1024 : ℚ), (0 : ℚ)).2 ≤ 538 :=
  c5_output_within_bounds 5000 (-3) 9999 0 1024 538 (1024, 0) (by norm_num) (by norm_num)
    (Or.inl (by norm_num [convert_entry_points, clampQ]))

/-! ## C6 — coordinate reordering and corner winding -/

/-- C6, counterexample: the claim says the normalizer reorders so that
`xmin = min(x1,x2)` (same for y) and emits corners in
top-left, top-right, bottom-right, bottom-left order, in particular when
`x1 > x2` and `y1 > y2`.  `generate_xlabel_from_assistant_response` does
not reorder: on the box `(30,40,10,20)` in a `100×100` image it emits
the corners built directly from the clamped inputs, not the claimed
winding. -/
theorem c6_counterexample :
    generate_xlabel_points 30 40 10 20 100 100 ≠
      [((10 : ℚ), (20 : ℚ)), (30, 20), (30, 40), (10, 40)] ∧
    generate_xlabel_points 30 40 10 20 100 100 =
      [((30 : ℚ), (40 : ℚ)), (10, 40), (10, 20), (30, 20)] := by
  constructor <;> norm_num [generate_xlabel_points, clampQ]

/-- C6, amended: the script's `convert_entry_to_xlabel` does reorder —
its corners are exactly top-left, top-right, bottom-right, bottom-left of
the min/max of the clamped coordinates, and its output is invariant
under swapping `(x1, y1)` with `(x2, y2)`; the dialog's
`generate_xlabel_from_assistant_response` emits the clamped corners
without reordering, so its output has the claimed winding only when
`x1 ≤ x2` and `y1 ≤ y2`. -/
theorem c6_amended_reordering :
    (∀ x1 y1 x2 y2 w h : ℚ,
      convert_entry_points x1 y1 x2 y2 w h =
        [(min (clampQ x1 w) (clampQ x2 w), min (clampQ y1 h) (clampQ y2 h)),
         (max (clampQ x1 w) (clampQ x2 w), min (clampQ y1 h) (clampQ y2 h)),
         (max (clampQ x1 w) (clampQ x2 w), max (clampQ y1 h) (clampQ y2 h)),
         (min (clampQ x1 w) (clampQ x2 w), max (clampQ y1 h) (clampQ y2 h))] ∧
      convert_entry_points x1 y1 x2 y2 w h = convert_entry_points x2 y2 x1 y1 w h) ∧
    (∀ x1 y1 x2 y2 w h : ℚ,
      generate_xlabel_points x1 y1 x2 y2 w h =
        [(clampQ x1 w, clampQ y1 h), (clampQ x2 w, clampQ y1 h),
         (clampQ x2 w, clampQ y2 h), (clampQ x1 w, clampQ y2 h)]) ∧
    (∀ x1 y1 x2 y2 w h : ℚ, x1 ≤ x2 → y1 ≤ y2 →
      generate_xlabel_points x1 y1 x2 y2 w h =
        [(min (clampQ x1 w) (clampQ x2 w), min (clampQ y1 h) (clampQ y2 h)),
         (max (clampQ x1 w) (clampQ x2 w), min (clampQ y1 h) (clampQ y2 h)),
         (max (clampQ x1 w) (clampQ x2 w), max (clampQ y1 h) (clampQ y2 h)),
         (min (clampQ x1 w) (clampQ x2 w), max (clampQ y1 h) (clampQ y2 h))]) := by
  refine ⟨?_, ?_, ?_⟩
  · intro x1 y1 x2 y2 w h
    constructor
    · rfl
    · simp only [convert_entry_points]
      rw [min_comm (clampQ x1 w), max_comm (clampQ x1 w),
        min_comm (clampQ y1 h), max_comm (clampQ y1 h)]
  · intro x1 y1 x2 y2 w h
    rfl
  · intro x1 y1 x2 y2 w h hx hy
    have hcx := clampQ_mono w hx
    have hcy := clampQ_mono h hy
    simp only [generate_xlabel_points]
    rw [min_eq_left hcx, max_eq_right hcx, min_eq_left hcy, max_eq_right hcy]

/-- C6 witness: the amended theorem's ordered case applied to the box
`(1, 2, 3, 4)` in a `10×10` image. -/
theorem c6_amended_witness :
    generate_xlabel_points 1 2 3 4 10 10 =
      [(min (clampQ 1 10) (clampQ 3 10), min (clampQ 2 10) (clampQ 4 10)),
       (max (clampQ 1 10) (clampQ 3 10), min (clampQ 2 10) (clampQ 4 10)),
       (max (clampQ 1 10) (clampQ 3 10), max (clampQ 2 10) (clampQ 4 10)),
       (min (clampQ 1 10) (clampQ 3 10), max (clampQ 2 10) (clampQ 4 10))] :=
  c6_amended_reordering.2.2 1 2 3 4 10 10 (by norm_num) (by norm_num)

/-! ## C10 — is the annotation write atomic? -/

/-- C10, counterexample: the claim says a write either persists the full
new document or leaves the previous file untouched.  The code opens the
target with mode `'w'` (truncating it) and then streams the dump, so a
failure after the first chunk leaves a file that is neither the old
content nor the new document. -/
theorem c10_counterexample :
    fileAfterSteps "\x7b\"version\": \"4.0\"\x7d"
        ["\x7b\"chat_history\": ", "[]\x7d"] 2 ≠ "\x7b\"version\": \"4.0\"\x7d" ∧
    fileAfterSteps "\x7b\"version\": \"4.0\"\x7d"
        ["\x7b\"chat_history\": ", "[]\x7d"] 2 ≠
      String.join ["\x7b\"chat_history\": ", "[]\x7d"] := by
  constructor <;> decide

/-- C10, amended: the write of `save_chat_history_with_prefix` (and of
`generate_xlabel_from_assistant_response`) truncates the target in place
and streams the new document; before the truncating open the old content
is intact, a failure after `k` further steps leaves exactly the first
`k` chunks of the new document, and only a completed write yields the
full document — the operation is not atomic. -/
theorem c10_amended_truncating_write :
    ∀ (old : String) (chunks : List String),
      fileAfterSteps old chunks 0 = old ∧
      fileAfterSteps old chunks (writeStepCount chunks) = String.join chunks ∧
      ∀ k : Nat, fileAfterSteps old chunks (k + 1) = String.join (chunks.take k) := by
  intro old chunks
  refine ⟨rfl, ?_, fun k => rfl⟩
  simp [fileAfterSteps, writeStepCount, List.take_length]

/-! ## C2 — one terminal event per turn? -/

/-- C2, counterexample: the claim says the channel delivers the chunks
followed by exactly one terminal event, never both a success and a
failure — in particular not under cancellation while streaming.  In the
run where the user cancels after the chunk `"Hello"` of
`["Hello", " world"]`, the worker breaks out of its loop and still
reaches `finished.emit(True)`, while the poller, observing the flag with
text already accumulated, emits `finished.emit(False)`: the channel
carries two terminal events for the turn, one success and one failure,
whatever order they are delivered in. -/
theorem c2_counterexample :
    ((workerEvents ["Hello", " world"] (some 1) ++
        cancelThreadEvents true "Hello").filter ChanEvent.isTerminal).length = 2 ∧
    ((workerEvents ["Hello", " world"] (some 1) ++
        cancelThreadEvents true "Hello").filter ChanEvent.isSuccess).length = 1 ∧
    ((workerEvents ["Hello", " world"] (some 1) ++
        cancelThreadEvents true "Hello").filter ChanEvent.isFailure).length = 1 := by
  refine ⟨rfl, rfl, rfl⟩

/-- C2, amended: text chunks cross the channel in FIFO order (the worker
emits them in upstream order, ending with its terminal event); a turn
with no cancellation and no transport error carries exactly one terminal
event, a success; a turn whose iteration raises carries exactly one
terminal event, a failure; but a turn in which the poller observes a
cancellation while the worker streams carries two terminal events — the
poller's failure and the worker's success. -/
theorem c2_amended_terminal_events :
    (∀ chunks : List String,
      workerEvents chunks none = chunks.map ChanEvent.chunk ++ [.finished true] ∧
      (workerEvents chunks none ++ cancelThreadEvents false "").filter
          ChanEvent.isTerminal = [.finished true]) ∧
    (∀ (chunks : List String) (errBefore : Nat) (msg : String),
      (workerErrorEvents chunks errBefore msg).filter ChanEvent.isTerminal =
        [.finished false]) ∧
    (∀ (chunks : List String) (k : Nat) (acc : String),
      ((workerEvents chunks (some k) ++ cancelThreadEvents true acc).filter
          ChanEvent.isTerminal).length = 2) := by
  have hmap : ∀ l : List String,
      (l.map ChanEvent.chunk).filter ChanEvent.isTerminal = [] := by
    intro l
    rw [List.filter_map]
    have : (ChanEvent.isTerminal ∘ ChanEvent.chunk) = fun _ => false := rfl
    rw [this, List.filter_false, List.map_nil]
  refine ⟨fun chunks => ⟨rfl, ?_⟩, fun chunks errBefore msg => ?_, fun chunks k acc => ?_⟩
  · simp only [workerEvents, cancelThreadEvents, if_neg (Bool.false_ne_true),
      List.append_nil, List.filter_append, hmap, List.nil_append]
    rfl
  · simp only [workerErrorEvents, List.filter_append, hmap, List.nil_append]
    rfl
  · simp only [workerEvents, cancelThreadEvents, if_pos rfl, List.filter_append, hmap,
      List.nil_append, List.length_append]
    by_cases hacc : acc = ""
    · rw [if_pos hacc]
      rfl
    · rw [if_neg hacc]
      rfl

/-! ## C3 — cancellation before any chunk -/

/-- C3, counterexample: the claim says that whenever `stop_requested`
becomes true before any text has accumulated, the turn ends as a
cancellation failure and the history holds no new assistant message.
That holds only for the delivery order in which the poller's events are
processed first.  The worker also emits `finished.emit(True)` after
breaking out of its loop; if that success event is delivered first,
`on_stream_finished` commits the (empty) accumulated text: the history
gains an assistant message with empty content, and the rollback inside
`handle_error` is skipped because the loading message is already gone. -/
theorem c3_counterexample :
    (fgRun (workerEvents ["Hi"] (some 0) ++ cancelThreadEvents true "")
        (startTurn [] "Find the cat")).history =
      [⟨"user", "Find the cat"⟩, ⟨"assistant", ""⟩] ∧
    ((fgRun (workerEvents ["Hi"] (some 0) ++ cancelThreadEvents true "")
        (startTurn [] "Find the cat")).history.filter
          (fun m => m.role = "assistant")).length ≠ 0 := by
  refine ⟨rfl, ?_⟩
  decide

/-- C3, amended: when `stop_requested` is observed before any chunk and
the poller's error and failure events are delivered before the worker's
terminal event — the usual schedule, since the worker is blocked on the
upstream iterator — the turn ends as a cancellation failure: the error
`"Error: Request cancelled by user"` is displayed, the history is rolled
back to exactly its pre-turn state (no new assistant message, and the
user message of the turn removed as well), and streaming stops.  If the
worker's success terminal is delivered first, an empty assistant message
is committed instead. -/
theorem c3_amended_cancel_before_chunk :
    ∀ (h0 : List Msg) (u : String) (chunks : List String),
      (fgRun (cancelThreadEvents true "" ++ workerEvents chunks (some 0))
          (startTurn h0 u)).history = h0 ∧
      (fgRun (cancelThreadEvents true "" ++ workerEvents chunks (some 0))
          (startTurn h0 u)).displayedErrors = ["Error: Request cancelled by user"] ∧
      (fgRun (cancelThreadEvents true "" ++ workerEvents chunks (some 0))
          (startTurn h0 u)).streaming = false := by
  intro h0 u chunks
  simp only [cancelThreadEvents, if_pos rfl, workerEvents, List.take_zero, List.map_nil,
    List.nil_append, fgRun, startTurn, List.foldl_cons, List.foldl_nil,
    List.cons_append, List.singleton_append]
  simp [fgStep, addMessage, List.dropLast_concat]

/-! ## C8 — the inline `bbox2d` notation -/

/-- C8: the claim (and the spec, and the comment over method 4 in the
source) say the inline form `bbox2d <label> <4 numbers>` yields one
record — in particular `'bbox2d cat 10, 20, 30, 40'` gives label
`"cat"` with box `(10,20,30,40)`.  The pattern in the code,
`bbox2d\s+([^\s$]+?)\s*$(.*?)$`, anchors both groups at the end of the
string, so the numeric run can never be captured: the extraction
returns nothing on that input, and method 4 can never contribute a
record on any input (every match captures an empty coordinate string,
which parses as the empty list and fails the four-element check). -/
theorem c8_inline_notation_dead :
    extract_bbox_data "bbox2d cat 10, 20, 30, 40" = [] ∧
    ∀ cs : List Char, method4 cs = [] :=
  ⟨rfl, method4_eq_nil⟩

/-! ## C7 — field-name flexibility of the object loop -/

theorem getKey_eq_none {kvs : List (String × Json)} {k : String}
    (h : ∀ p ∈ kvs, p.1 ≠ k) : (Json.obj kvs).getKey k = none := by
  have hfm : kvs.filterMap (fun p => if p.1 = k then some p.2 else none) = [] :=
    List.filterMap_eq_nil_iff.mpr (fun p hp => by rw [if_neg (h p hp)])
  show (kvs.filterMap fun p => if p.1 = k then some p.2 else none).getLast? = none
  rw [hfm]
  rfl

/-- C7: `QwenVL.postprocess` accepts a box as a 4-element list or as a
dict under any of the names `xmin/x1`, `ymin/y1`, `xmax/x2`, `ymax/y2`,
and a label under `label`, `class`, or `category`; an object with none
of the recognized label/box/point fields contributes no shape and raises
nothing; and stage 1 of `extract_bbox_data` skips a dict without
`bbox_2d` the same way. -/
theorem c7_field_name_flexibility :
    (∀ (L : Json) (a b c d : ℤ) (sa sb sc sd : ℕ),
      processObjects [.obj [("label", L),
          ("bbox", .arr [.num a sa, .num b sb, .num c sc, .num d sd])]] =
        [.rect L (Json.qval a sa, Json.qval b sb) (Json.qval c sc, Json.qval d sd)]) ∧
    (∀ (L : Json) (a b c d : ℤ),
      processObjects [.obj [("label", L),
          ("bbox", .obj [("xmin", .num a 0), ("ymin", .num b 0),
                         ("xmax", .num c 0), ("ymax", .num d 0)])]] =
        [.rect L (Json.qval a 0, Json.qval b 0) (Json.qval c 0, Json.qval d 0)]) ∧
    (∀ (L : Json) (a b c d : ℤ),
      processObjects [.obj [("label", L),
          ("bbox", .obj [("x1", .num a 0), ("y1", .num b 0),
                         ("x2", .num c 0), ("y2", .num d 0)])]] =
        [.rect L (Json.qval a 0, Json.qval b 0) (Json.qval c 0, Json.qval d 0)]) ∧
    (∀ (s : String) (a b c d : ℤ),
      processObjects [.obj [("class", .str s),
          ("bbox", .arr [.num a 0, .num b 0, .num c 0, .num d 0])]] =
        [.rect (.str s) (Json.qval a 0, Json.qval b 0) (Json.qval c 0, Json.qval d 0)]) ∧
    (∀ (s : String) (a b c d : ℤ),
      processObjects [.obj [("category", .str s),
          ("bbox", .arr [.num a 0, .num b 0, .num c 0, .num d 0])]] =
        [.rect (.str s) (Json.qval a 0, Json.qval b 0) (Json.qval c 0, Json.qval d 0)]) ∧
    (∀ kvs : List (String × Json),
      (∀ p ∈ kvs, p.1 ≠ "label" ∧ p.1 ≠ "class" ∧ p.1 ≠ "category" ∧ p.1 ≠ "bbox" ∧
        p.1 ≠ "bounding_box" ∧ p.1 ≠ "box" ∧ p.1 ≠ "points" ∧ p.1 ≠ "landmarks" ∧
        p.1 ≠ "keypoints") →
      processObjects [.obj kvs] = []) ∧
    (∀ kvs : List (String × Json), (∀ p ∈ kvs, p.1 ≠ "bbox_2d") →
      collectDetections (.obj kvs) = []) := by
  refine ⟨fun L a b c d sa sb sc sd => rfl, fun L a b c d => rfl, fun L a b c d => rfl,
    fun s a b c d => rfl, fun s a b c d => rfl, ?_, ?_⟩
  · intro kvs h
    have hbbox : (Json.obj kvs).getKey "bbox" = none :=
      getKey_eq_none fun p hp => (h p hp).2.2.2.1
    have hbb : (Json.obj kvs).getKey "bounding_box" = none :=
      getKey_eq_none fun p hp => (h p hp).2.2.2.2.1
    have hbox : (Json.obj kvs).getKey "box" = none :=
      getKey_eq_none fun p hp => (h p hp).2.2.2.2.2.1
    have hpts : (Json.obj kvs).getKey "points" = none :=
      getKey_eq_none fun p hp => (h p hp).2.2.2.2.2.2.1
    have hlm : (Json.obj kvs).getKey "landmarks" = none :=
      getKey_eq_none fun p hp => (h p hp).2.2.2.2.2.2.2.1
    have hkp : (Json.obj kvs).getKey "keypoints" = none :=
      getKey_eq_none fun p hp => (h p hp).2.2.2.2.2.2.2.2
    simp [processObjects, objShapes, rectStep, pointsPart, qwenBbox, qwenPoints,
      hbbox, hbb, hbox, hpts, hlm, hkp, Json.isObj]
  · intro kvs h
    have h1 : (Json.obj kvs).getKey "bbox_2d" = none := getKey_eq_none h
    simp [collectDetections, isDetection, Json.hasKey, h1]

/-- C7 witness: the theorem applied to a concrete detection with a
4-element list box, and to a concrete object with no recognizable
field. -/
theorem c7_witness :
    processObjects [.obj [("label", .str "cat"),
        ("bbox", .arr [.num 1 0, .num 2 0, .num 3 0, .num 4 0])]] =
      [.rect (.str "cat") (Json.qval 1 0, Json.qval 2 0) (Json.qval 3 0, Json.qval 4 0)] ∧
    processObjects [.obj [("confidence", .num 9 1)]] = [] ∧
    collectDetections (.obj [("confidence", .num 9 1)]) = [] :=
  ⟨c7_field_name_flexibility.1 (.str "cat") 1 2 3 4 0 0 0 0,
   c7_field_name_flexibility.2.2.2.2.2.1 [("confidence", .num 9 1)] (by simp),
   c7_field_name_flexibility.2.2.2.2.2.2 [("confidence", .num 9 1)] (by simp)⟩

/-! ## C1 — extraction of the direct and fenced JSON detection -/

/-- C1: on the bare JSON `'{"label":"cat","bbox_2d":[10,20,30,40]}'`,
`extract_bbox_data` yields exactly the one record with label `"cat"` and
box `(10,20,30,40)`; on every text made of prose (characters other than
backticks, braces, brackets and quotes) around a fenced code block
holding that same JSON it yields the identical single record (stage 1
provably fails on every such text, so stage 2 decides); and whenever
stage 1 yields a record, the extraction returns stage 1's result — the
fenced-block stage is attempted only when stage 1 yields nothing. -/
theorem c1_extraction_chain :
    extract_bbox_data catJsonText = [catDetection] ∧
    (∀ pre suf : List Char, IsProse pre → IsProse suf →
      extractChars (pre ++ fencedCat ++ suf) = [catDetection]) ∧
    (∀ cs : List Char, method1 cs ≠ [] → extractChars cs = method1 cs) := by
  refine ⟨rfl, ?_, ?_⟩
  · intro pre suf hpre hsuf
    have hm1 : method1 (pre ++ fencedCat ++ suf) = [] := by
      rw [List.append_assoc]
      have hfs : fencedCat ++ suf =
          '\x60' :: (('\x60' :: '\x60' :: ("json\n".data ++
            (catJsonText.data ++ ('\n' :: fenceTok)))) ++ suf) := by
        simp [fencedCat, fenceTok, List.append_assoc]
      rw [hfs]
      exact method1_eq_of_loads_none (loadsChars_prose_backtick hpre)
    have hm2 : method2 (pre ++ fencedCat ++ suf) = [catDetection] := by
      unfold method2
      rw [findCodeBlocks_fencedCat (fun c hc => (hpre c hc).1) (fun c hc => (hsuf c hc).1)]
      rfl
    simp only [extractChars, hm1, hm2]
    rfl
  · intro cs h
    have hne : (!(method1 cs).isEmpty) = true := by
      simpa [List.isEmpty_iff] using h
    simp only [extractChars, hne]
    rfl

/-- C1 witness: the chain theorem applied to concrete prose around the
fenced block, and to the bare JSON for the stage-ordering clause. -/
theorem c1_witness :
    IsProse ("Here are the results.\n".data) ∧ IsProse ("\nDone, sir.".data) ∧
    extractChars ("Here are the results.\n".data ++ fencedCat ++ "\nDone, sir.".data) =
      [catDetection] ∧
    extractChars catJsonText.data = method1 catJsonText.data := by
  have hne : method1 catJsonText.data ≠ [] := by
    have hm : method1 catJsonText.data = [catDetection] := rfl
    rw [hm]
    exact List.cons_ne_nil _ _
  exact ⟨by decide, by decide,
    c1_extraction_chain.2.1 _ _ (by decide) (by decide),
    c1_extraction_chain.2.2 catJsonText.data hne⟩

/-! ## C9 — totality and the empty result on plain text -/

/-- C9: `extract_bbox_data` is total by construction (every stage is a
function returning a list, with parse failures mapped to the next
stage), and on any text containing no JSON and no recognizable notation
— here: any text of prose characters that moreover opens no `<answer>`
tag — it returns the empty list: stage 1 parses to nothing or to a
scalar, stages 2 and 3 find no fence or tag to scan, and stage 4 never
produces a record. -/
theorem c9_plain_text_yields_empty :
    ∀ l : List Char, IsPlainText l → extractChars l = [] := by
  intro l hl
  obtain ⟨hprose, hlt⟩ := hl
  have h1 : method1 l = [] := method1_prose hprose
  have h2 : method2 l = [] := by
    unfold method2 findCodeBlocks
    rw [findCodeBlocksAux_nil (fun c hc => (hprose c hc).1) _]
    rfl
  have h3 : method3 l = [] := by
    unfold method3 findAnswers
    rw [findAnswersAux_nil hlt _]
    rfl
  have h4 : method4 l = [] := method4_eq_nil l
  simp only [extractChars, h1, h2, h3, h4]
  rfl

/-- C9 witness: the plain-text theorem applied to a concrete sentence. -/
theorem c9_witness :
    IsPlainText ("The image shows two cats.".data) ∧
    extractChars ("The image shows two cats.".data) = [] :=
  ⟨by decide, c9_plain_text_yields_empty _ (by decide)⟩

end XAny

